import Mathlib

/-!
Shallow embedding of `src/app/components/ApplicationFormManager.tsx`.

The component is a client-side file manager bound to one `clientId`.  Its
mutable UI state (React `useState` hooks) is modelled by `ComponentState`;
each event handler (`loadFiles`, `handleFileUpload`, `handleFileDelete`)
becomes a pure function from the handler's inputs, the responses the storage
backend would give to the calls the handler makes, and the pre-state, to the
post-state together with the list of backend calls the handler issued
(in program order).  Strings are Lean `String`s; byte counts are `Nat`.
-/

namespace AppForms

/-- A browser `File` object as the component reads it: `name`, MIME `type`,
`size` in bytes. -/
structure JsFile where
  name : String
  type : String
  size : Nat
deriving DecidableEq, Repr

/-- One entry of the storage backend's `list` response as the component reads
it: `file.name`, `file.metadata?.size` (absent metadata modelled as `none`),
`file.created_at` (absent modelled as `none`). -/
structure FileEntry where
  name : String
  metadataSize : Option Nat
  createdAt : Option String
deriving DecidableEq, Repr

/-- The `UploadedFile` record the component builds for display
(`interface UploadedFile` in the source). -/
structure UploadedFile where
  name : String
  path : String
  size : Nat
  uploadedAt : String
  url : Option String
deriving DecidableEq, Repr

/-- The component's UI state: the five `useState` hooks
`files`, `uploading`, `loading`, `error`, `success`. -/
structure ComponentState where
  files : List UploadedFile
  uploading : Bool
  loading : Bool
  error : Option String
  success : Option String
deriving DecidableEq, Repr

/-- The initial state of the hooks: `useState([])`, `useState(false)`,
`useState(true)`, `useState(null)`, `useState(null)`. -/
def initialState : ComponentState :=
  { files := [], uploading := false, loading := true, error := none, success := none }

/-- A call issued to the storage backend. -/
inductive BackendCall where
  | list (bucket folder : String) (limit offset : Nat)
  | createSignedUrl (bucket path : String) (expirySeconds : Nat)
  | upload (bucket path : String) (cacheControl : String) (upsert : Bool)
  | remove (bucket : String) (paths : List String)
deriving DecidableEq, Repr

/-- Outcome of the backend `list` call: data, an error object with a
`message`, or a thrown exception (caught by the handler's `catch`). -/
inductive ListResponse where
  | ok (entries : List FileEntry)
  | err (message : String)
  | exn
deriving DecidableEq, Repr

/-- Outcome of a backend `upload` or `remove` call. -/
inductive StoreResponse where
  | ok
  | err (message : String)
  | exn
deriving DecidableEq, Repr

/-- `lr` is a failing list outcome (error object or exception). -/
def listFailed : ListResponse → Bool
  | .ok _ => false
  | .err _ => true
  | .exn => true

/-- JavaScript `x || d` for an optional string `x`: `null`/`undefined` and
the empty string are falsy. -/
def jsOrStr (x : Option String) (d : String) : String :=
  match x with
  | some s => if s = "" then d else s
  | none => d

/-- JavaScript `x || d` for an optional number `x` (here a `Nat`):
`null`/`undefined` and `0` are falsy. -/
def jsOrNat (x : Option Nat) (d : Nat) : Nat :=
  match x with
  | some n => if n = 0 then d else n
  | none => d

/-- The record built for one list entry inside `loadFiles`
(`name`, `path = clientId/name`, `size = metadata?.size || 0`,
`uploadedAt = created_at || new Date().toISOString()`,
`url = urlData?.signedUrl`).  `su` gives the signed-url response per path. -/
def mkUploadedFile (clientId now : String) (su : String → Option String)
    (e : FileEntry) : UploadedFile :=
  { name := e.name
    path := clientId ++ "/" ++ e.name
    size := jsOrNat e.metadataSize 0
    uploadedAt := jsOrStr e.createdAt now
    url := su (clientId ++ "/" ++ e.name) }

/-- `loadFiles` (source lines 32-79).  Sets `loading`, clears `error`, lists
the client's folder with `limit 100, offset 0`; on a list error sets
`error = "Failed to load files: " ++ message`; on data, requests a signed URL
(expiry 3600 s) for each entry and replaces `files`; a thrown exception is
caught and sets the generic message.  `finally` clears `loading`.
`now` is the current time's ISO string (used as the `created_at` default). -/
def loadFiles (clientId now : String) (lr : ListResponse)
    (su : String → Option String) (s : ComponentState) :
    ComponentState × List BackendCall :=
  let listCall := BackendCall.list "application-forms" clientId 100 0
  match lr with
  | .err m =>
      ({ s with loading := false, error := some ("Failed to load files: " ++ m) },
       [listCall])
  | .exn =>
      ({ s with loading := false, error := some "Failed to load application forms" },
       [listCall])
  | .ok entries =>
      ({ s with loading := false, error := none,
                files := entries.map (mkUploadedFile clientId now su) },
       listCall ::
         entries.map (fun e =>
           BackendCall.createSignedUrl "application-forms"
             (clientId ++ "/" ++ e.name) 3600))

/-- The upload MIME allow-list (source lines 91-101). -/
def allowedTypes : List String :=
  ["application/pdf",
   "application/msword",
   "application/vnd.openxmlformats-officedocument.wordprocessingml.document",
   "application/vnd.ms-excel",
   "application/vnd.openxmlformats-officedocument.spreadsheetml.sheet",
   "text/plain",
   "image/jpeg",
   "image/png",
   "image/gif"]

/-- JavaScript `name.split('.')` on the character list of a string
(non-empty single-character separator): `[] ↦ [[]]`, separators delimit
possibly-empty segments. -/
def splitDots : List Char → List (List Char)
  | [] => [[]]
  | c :: cs =>
    if c = '.' then [] :: splitDots cs
    else
      match splitDots cs with
      | [] => [[c]]
      | s :: ss => (c :: s) :: ss

/-- `new Date().toISOString().replace(/[:.]/g, '-')`: every colon and dot of
the ISO timestamp becomes a hyphen. -/
def isoToTimestamp (iso : String) : String :=
  String.mk (iso.data.map (fun c => if c = ':' ∨ c = '.' then '-' else c))

/-- The derived object name (source lines 115-117):
`${file.name.split('.')[0]}_${timestamp}.${file.name.split('.').pop()}`. -/
def derivedFileName (name timestamp : String) : String :=
  String.mk ((splitDots name.data).headD []) ++ "_" ++ timestamp ++ "." ++
    String.mk ((splitDots name.data).getLastD [])

/-- The characters of `l` strictly before its first `'.'`
(all of `l` when it has no dot). -/
def beforeFirstDotL : List Char → List Char
  | [] => []
  | c :: cs => if c = '.' then [] else c :: beforeFirstDotL cs

/-- The characters of `l` strictly after its last `'.'`
(all of `l` when it has no dot). -/
def afterLastDotL : List Char → List Char
  | [] => []
  | c :: cs => if c = '.' ∨ '.' ∈ cs then afterLastDotL cs else c :: cs

/-- `file.type ∈` allow-list and `file.size ≤ 50 * 1024 * 1024`: the file
passes `handleFileUpload`'s validation. -/
def validFile (f : JsFile) : Bool :=
  decide (f.type ∈ allowedTypes) && decide (f.size ≤ 50 * 1024 * 1024)

/-- `handleFileUpload` (source lines 81-156).  `file?` is
`event.target.files?.[0]`; absent file returns at once.  Sets `uploading`,
clears both messages, validates type then size (returning with a validation
error and no backend call on failure), derives the object name from the
upload-time ISO string `nowIso`, uploads to `clientId/<name>` with
`cacheControl "3600", upsert false`; on upload error sets
`error = "Upload failed: " ++ message`; on success sets the success message
and runs a full `loadFiles` (whose list/signed-url responses are `lr`/`su`);
an exception is caught with the generic message.  `finally` clears
`uploading`. -/
def handleFileUpload (clientId : String) (file? : Option JsFile)
    (nowIso : String) (ur : StoreResponse) (lr : ListResponse)
    (su : String → Option String) (s : ComponentState) :
    ComponentState × List BackendCall :=
  match file? with
  | none => (s, [])
  | some file =>
    let s1 := { s with uploading := true, error := none, success := none }
    if file.type ∉ allowedTypes then
      ({ s1 with uploading := false,
                 error := some "File type not supported. Please upload PDF, Word, Excel, text, or image files." },
       [])
    else if 50 * 1024 * 1024 < file.size then
      ({ s1 with uploading := false,
                 error := some "File size must be less than 50MB" },
       [])
    else
      let fileName := derivedFileName file.name (isoToTimestamp nowIso)
      let filePath := clientId ++ "/" ++ fileName
      let uploadCall := BackendCall.upload "application-forms" filePath "3600" false
      match ur with
      | .err m =>
          ({ s1 with uploading := false,
                     error := some ("Upload failed: " ++ m) },
           [uploadCall])
      | .exn =>
          ({ s1 with uploading := false,
                     error := some "An unexpected error occurred during upload" },
           [uploadCall])
      | .ok =>
          let s2 := { s1 with
            success := some ("File \"" ++ file.name ++ "\" uploaded successfully!") }
          let res := loadFiles clientId nowIso lr su s2
          ({ res.1 with uploading := false }, uploadCall :: res.2)

/-- `handleFileDelete` (source lines 158-183).  `confirmed` is the result of
the `confirm(...)` dialog; without it the handler returns at once.  Otherwise
it clears both messages, removes `[filePath]`; on error sets
`error = "Failed to delete file: " ++ message`; on success sets the success
message and runs a full `loadFiles`; an exception is caught with the generic
message. -/
def handleFileDelete (clientId filePath fileName : String) (confirmed : Bool)
    (rr : StoreResponse) (lr : ListResponse) (su : String → Option String)
    (now : String) (s : ComponentState) : ComponentState × List BackendCall :=
  if confirmed then
    let s1 := { s with error := none, success := none }
    let removeCall := BackendCall.remove "application-forms" [filePath]
    match rr with
    | .err m =>
        ({ s1 with error := some ("Failed to delete file: " ++ m) }, [removeCall])
    | .exn =>
        ({ s1 with error := some "Failed to delete file" }, [removeCall])
    | .ok =>
        let s2 := { s1 with
          success := some ("File \"" ++ fileName ++ "\" deleted successfully!") }
        let res := loadFiles clientId now lr su s2
        (res.1, removeCall :: res.2)
  else (s, [])

/-- Both UI messages are visible at once. -/
def bothSet (s : ComponentState) : Bool :=
  s.error.isSome && s.success.isSome

/-- Modelled from the spec: the storage backend's upsert semantics for
`upload(path, …, {upsert})` — the backend service itself is an external
collaborator, not part of `src/`.  With `upsert = false` an upload to an
existing path fails (`none`); with `upsert = true` it would replace the
object; a fresh path stores the object. -/
def uploadToStore (objects : List String) (path : String) (upsert : Bool) :
    Option (List String) :=
  if path ∈ objects then (if upsert then some objects else none)
  else some (objects ++ [path])

/-- Modelled from the spec: effect of one backend call on the backend's
object set (paths).  A failed non-upsert upload leaves the set unchanged;
`remove` deletes the listed paths; `list`/`createSignedUrl` are reads. -/
def applyCall (objects : List String) (c : BackendCall) : List String :=
  match c with
  | .upload _ path _ upsert => (uploadToStore objects path upsert).getD objects
  | .remove _ paths => objects.filter (fun p => decide (p ∉ paths))
  | .list _ _ _ _ => objects
  | .createSignedUrl _ _ _ => objects

/-- Effect of a call sequence on the backend's object set. -/
def applyCalls (objects : List String) (cs : List BackendCall) : List String :=
  cs.foldl applyCall objects

/-- Exact decimal rendering of JavaScript
`parseFloat((num / den).toFixed(2))` followed by string conversion, for a
value that is an exact ratio of naturals: round `num / den` to the nearest
hundredth (ties away from zero, as `toFixed` does for exactly representable
values), then drop trailing zeros and a bare decimal point. -/
def renderFixed2 (num den : Nat) : String :=
  let h := (num * 200 + den) / (den * 2)
  let whole := h / 100
  let frac := h % 100
  if frac = 0 then toString whole
  else if frac % 10 = 0 then toString whole ++ "." ++ toString (frac / 10)
  else if frac < 10 then toString whole ++ ".0" ++ toString frac
  else toString whole ++ "." ++ toString frac

/-- The unit symbol list `['Bytes', 'KB', 'MB', 'GB']`. -/
def sizesList : List String := ["Bytes", "KB", "MB", "GB"]

/-- `formatFileSize` (source lines 205-211).  `0 ↦ "0 Bytes"`; otherwise
`i = Math.floor(Math.log(bytes) / Math.log(1024))` is the floor of the
base-1024 logarithm (`Nat.log 1024`), and the result is
`parseFloat((bytes / 1024 ** i).toFixed(2)) + ' ' + sizes[i]`, where an
out-of-range index makes JavaScript render `undefined`. -/
def formatFileSize (bytes : Nat) : String :=
  if bytes = 0 then "0 Bytes"
  else
    renderFixed2 bytes (1024 ^ Nat.log 1024 bytes) ++ " " ++
      sizesList.getD (Nat.log 1024 bytes) "undefined"

end AppForms

namespace AppForms

/-! ### Helper lemmas about `splitDots` -/

theorem splitDots_ne_nil (l : List Char) : splitDots l ≠ [] := by
  induction l with
  | nil => simp [splitDots]
  | cons c cs ih =>
    by_cases hc : c = '.'
    · simp [splitDots, hc]
    · cases h : splitDots cs with
      | nil => simp [splitDots, hc, h]
      | cons s ss => simp [splitDots, hc, h]

theorem splitDots_cons_exists (cs : List Char) :
    ∃ s ss, splitDots cs = s :: ss := by
  cases h : splitDots cs with
  | nil => exact absurd h (splitDots_ne_nil cs)
  | cons s ss => exact ⟨s, ss, rfl⟩

theorem splitDots_of_not_mem (l : List Char) (h : '.' ∉ l) :
    splitDots l = [l] := by
  induction l with
  | nil => rfl
  | cons c cs ih =>
    have hc : ¬ c = '.' := by
      intro e
      exact h (e ▸ List.mem_cons_self c cs)
    have hcs : '.' ∉ cs := fun hm => h (List.mem_cons_of_mem _ hm)
    simp [splitDots, hc, ih hcs]

theorem two_le_splitDots_length (l : List Char) (h : '.' ∈ l) :
    2 ≤ (splitDots l).length := by
  induction l with
  | nil => cases h
  | cons c cs ih =>
    by_cases hc : c = '.'
    · have h1 : 0 < (splitDots cs).length :=
        List.length_pos.mpr (splitDots_ne_nil cs)
      simp only [splitDots, if_pos hc, List.length_cons]
      omega
    · have hm : '.' ∈ cs := by
        rcases List.mem_cons.mp h with h' | h'
        · exact absurd h'.symm hc
        · exact h'
      obtain ⟨s, ss, he⟩ := splitDots_cons_exists cs
      have h2 := ih hm
      rw [he] at h2
      simp only [splitDots, if_neg hc, he, List.length_cons] at h2 ⊢
      omega

theorem headD_splitDots (l : List Char) :
    (splitDots l).headD [] = beforeFirstDotL l := by
  induction l with
  | nil => rfl
  | cons c cs ih =>
    by_cases hc : c = '.'
    · simp [splitDots, beforeFirstDotL, hc]
    · obtain ⟨s, ss, he⟩ := splitDots_cons_exists cs
      have hs : s = beforeFirstDotL cs := by
        rw [← ih, he]
        rfl
      simp [splitDots, beforeFirstDotL, hc, he, hs]

theorem getLastD_splitDots (l : List Char) :
    (splitDots l).getLastD [] = afterLastDotL l := by
  induction l with
  | nil => rfl
  | cons c cs ih =>
    by_cases hc : c = '.'
    · have hu : splitDots (c :: cs) = [] :: splitDots cs := by
        simp [splitDots, hc]
      rw [hu, List.getLastD_cons, ih]
      simp [afterLastDotL, hc]
    · by_cases hm : '.' ∈ cs
      · obtain ⟨s, ss, he⟩ := splitDots_cons_exists cs
        have hlen := two_le_splitDots_length cs hm
        rw [he] at hlen
        obtain ⟨s2, ss2, he2⟩ : ∃ s2 ss2, ss = s2 :: ss2 := by
          cases ss with
          | nil => simp at hlen
          | cons a b => exact ⟨a, b, rfl⟩
        have hu : splitDots (c :: cs) = (c :: s) :: s2 :: ss2 := by
          simp [splitDots, hc, he, he2]
        rw [hu, List.getLastD_cons, List.getLastD_cons]
        have : (splitDots cs).getLastD [] = ss2.getLastD s2 := by
          rw [he, he2, List.getLastD_cons, List.getLastD_cons]
        rw [← this, ih]
        simp [afterLastDotL, hc, hm]
      · have he := splitDots_of_not_mem cs hm
        have hu : splitDots (c :: cs) = [c :: cs] := by
          simp [splitDots, hc, he]
        rw [hu]
        simp [afterLastDotL, hc, hm, List.getLastD]

theorem derivedFileName_decomp (name ts : String) :
    derivedFileName name ts =
      String.mk (beforeFirstDotL name.data) ++ "_" ++ ts ++ "." ++
        String.mk (afterLastDotL name.data) := by
  unfold derivedFileName
  rw [headD_splitDots, getLastD_splitDots]

theorem beforeFirstDotL_spec (l : List Char) :
    ('.' ∉ l → beforeFirstDotL l = l) ∧
    ('.' ∈ l → '.' ∉ beforeFirstDotL l ∧
      ∃ post, l = beforeFirstDotL l ++ '.' :: post) := by
  induction l with
  | nil => simp [beforeFirstDotL]
  | cons c cs ih =>
    by_cases hc : c = '.'
    · constructor
      · intro h
        exact absurd (hc ▸ List.mem_cons_self c cs) h
      · intro _
        refine ⟨by simp [beforeFirstDotL, hc], cs, ?_⟩
        simp [beforeFirstDotL, hc]
    · constructor
      · intro h
        have hcs : '.' ∉ cs := fun hm => h (List.mem_cons_of_mem _ hm)
        simp [beforeFirstDotL, hc, ih.1 hcs]
      · intro h
        have hm : '.' ∈ cs := by
          rcases List.mem_cons.mp h with h' | h'
          · exact absurd h'.symm hc
          · exact h'
        obtain ⟨hnot, post, hp⟩ := ih.2 hm
        constructor
        · simp [beforeFirstDotL, hc]
          exact ⟨fun e => hc e.symm, hnot⟩
        · refine ⟨post, ?_⟩
          simp [beforeFirstDotL, hc]
          exact hp

theorem afterLastDotL_spec (l : List Char) :
    ('.' ∉ l → afterLastDotL l = l) ∧
    ('.' ∈ l → '.' ∉ afterLastDotL l ∧
      ∃ pre, l = pre ++ '.' :: afterLastDotL l) := by
  induction l with
  | nil => simp [afterLastDotL]
  | cons c cs ih =>
    constructor
    · intro h
      have hc : ¬ c = '.' := fun e => h (e ▸ List.mem_cons_self c cs)
      have hcs : '.' ∉ cs := fun hm => h (List.mem_cons_of_mem _ hm)
      simp [afterLastDotL, hc, hcs]
    · intro h
      by_cases hm : '.' ∈ cs
      · obtain ⟨hnot, pre, hp⟩ := ih.2 hm
        have hr : afterLastDotL (c :: cs) = afterLastDotL cs := by
          simp [afterLastDotL, hm]
        rw [hr]
        refine ⟨hnot, c :: pre, ?_⟩
        simpa using hp
      · have hc : c = '.' := by
          rcases List.mem_cons.mp h with h' | h'
          · exact h'.symm
          · exact absurd h' hm
        have hr : afterLastDotL (c :: cs) = afterLastDotL cs := by
          simp [afterLastDotL, hc]
        have hcs := ih.1 hm
        rw [hr, hcs]
        exact ⟨hm, [], by simp [hc]⟩

/-! ### Claim theorems -/

/-- Claim C4 (confirmed): whenever the list operation fails — backend list
error or unexpected exception — a human-readable error message is set
(`"Failed to load files: " ++ message`, or the generic
`"Failed to load application forms"`) and the displayed file list is left
unchanged; the initial file list, before any successful list, is empty. -/
theorem claim_C4 (clientId now : String) (su : String → Option String)
    (s : ComponentState) :
    (∀ m, (loadFiles clientId now (ListResponse.err m) su s).1.files = s.files ∧
        (loadFiles clientId now (ListResponse.err m) su s).1.error =
          some ("Failed to load files: " ++ m)) ∧
    ((loadFiles clientId now ListResponse.exn su s).1.files = s.files ∧
      (loadFiles clientId now ListResponse.exn su s).1.error =
        some "Failed to load application forms") ∧
    initialState.files = [] := by
  refine ⟨fun m => ⟨?_, ?_⟩, ⟨?_, ?_⟩, rfl⟩ <;> simp [loadFiles]

/-- Claim C5 (confirmed): a delete invoked without interactive confirmation
is a no-op — the UI state is returned unchanged, no backend call at all is
issued, and consequently the backend object set is unchanged. -/
theorem claim_C5 (clientId fp fn now : String) (rr : StoreResponse)
    (lr : ListResponse) (su : String → Option String) (s : ComponentState) :
    handleFileDelete clientId fp fn false rr lr su now s = (s, []) ∧
    ∀ objects,
      applyCalls objects (handleFileDelete clientId fp fn false rr lr su now s).2 =
        objects := by
  refine ⟨by simp [handleFileDelete], fun objects => ?_⟩
  simp [handleFileDelete, applyCalls]

/-- Claim C6 (confirmed): the list operation issues exactly one backend list
call, on bucket `application-forms` and the client's folder with
`limit = 100`, `offset = 0`; when it returns entries, one signed-URL request
with expiry exactly `3600` seconds follows per entry (and none otherwise). -/
theorem claim_C6 (clientId now : String) (su : String → Option String)
    (s : ComponentState) :
    (∀ entries, (loadFiles clientId now (ListResponse.ok entries) su s).2 =
        BackendCall.list "application-forms" clientId 100 0 ::
          entries.map (fun e => BackendCall.createSignedUrl "application-forms"
            (clientId ++ "/" ++ e.name) 3600)) ∧
    (∀ m, (loadFiles clientId now (ListResponse.err m) su s).2 =
        [BackendCall.list "application-forms" clientId 100 0]) ∧
    ((loadFiles clientId now ListResponse.exn su s).2 =
        [BackendCall.list "application-forms" clientId 100 0]) := by
  refine ⟨fun entries => ?_, fun m => ?_, ?_⟩ <;> simp [loadFiles]


/-- Claim C2 (confirmed): a file whose MIME type is outside the nine-entry
allow-list, or whose size exceeds 52,428,800 bytes, makes the upload set the
corresponding validation error and issue no backend call at all; a file of
size exactly 52,428,800 bytes with an allowed type passes validation, and the
upload call to the storage backend is issued. -/
theorem claim_C2 (clientId nowIso : String) (f : JsFile) (ur : StoreResponse)
    (lr : ListResponse) (su : String → Option String) (s : ComponentState) :
    (f.type ∉ allowedTypes →
      handleFileUpload clientId (some f) nowIso ur lr su s =
        ({ s with uploading := false,
                  error := some "File type not supported. Please upload PDF, Word, Excel, text, or image files.",
                  success := none }, [])) ∧
    (f.type ∈ allowedTypes → 52428800 < f.size →
      handleFileUpload clientId (some f) nowIso ur lr su s =
        ({ s with uploading := false,
                  error := some "File size must be less than 50MB",
                  success := none }, [])) ∧
    (f.type ∈ allowedTypes → f.size = 52428800 →
      ∃ rest, (handleFileUpload clientId (some f) nowIso ur lr su s).2 =
        BackendCall.upload "application-forms"
          (clientId ++ "/" ++ derivedFileName f.name (isoToTimestamp nowIso))
          "3600" false :: rest) := by
  refine ⟨fun ht => ?_, fun ht hs => ?_, fun ht hs => ?_⟩
  · simp [handleFileUpload, ht]
  · have hs' : 50 * 1024 * 1024 < f.size := by omega
    simp [handleFileUpload, ht, hs']
  · have hs' : ¬ 50 * 1024 * 1024 < f.size := by omega
    cases ur with
    | ok => cases lr <;> simp [handleFileUpload, ht, hs', loadFiles]
    | err m => simp [handleFileUpload, ht, hs']
    | exn => simp [handleFileUpload, ht, hs']

/-- Claim C2 witness: the three branches at concrete inputs — an `.exe`-style
file is rejected with no backend call, an oversized PDF is rejected with no
backend call, and a PDF of exactly 52,428,800 bytes passes validation and
reaches the backend upload call. -/
theorem claim_C2_witness :
    (handleFileUpload "c1" (some ⟨"x.exe", "application/x-msdownload", 10⟩)
        "2025-01-01T00:00:00.000Z" StoreResponse.ok (ListResponse.ok [])
        (fun _ => none) initialState =
      ({ initialState with uploading := false,
                           error := some "File type not supported. Please upload PDF, Word, Excel, text, or image files.",
                           success := none }, [])) ∧
    (handleFileUpload "c1" (some ⟨"big.pdf", "application/pdf", 52428801⟩)
        "2025-01-01T00:00:00.000Z" StoreResponse.ok (ListResponse.ok [])
        (fun _ => none) initialState =
      ({ initialState with uploading := false,
                           error := some "File size must be less than 50MB",
                           success := none }, [])) ∧
    (∃ rest, (handleFileUpload "c1" (some ⟨"ok.pdf", "application/pdf", 52428800⟩)
        "2025-01-01T00:00:00.000Z" StoreResponse.ok (ListResponse.ok [])
        (fun _ => none) initialState).2 =
      BackendCall.upload "application-forms"
        ("c1" ++ "/" ++ derivedFileName "ok.pdf"
          (isoToTimestamp "2025-01-01T00:00:00.000Z")) "3600" false :: rest) :=
  ⟨(claim_C2 "c1" "2025-01-01T00:00:00.000Z" ⟨"x.exe", "application/x-msdownload", 10⟩
      StoreResponse.ok (ListResponse.ok []) (fun _ => none) initialState).1
      (by decide),
   (claim_C2 "c1" "2025-01-01T00:00:00.000Z" ⟨"big.pdf", "application/pdf", 52428801⟩
      StoreResponse.ok (ListResponse.ok []) (fun _ => none) initialState).2.1
      (by decide) (by decide),
   (claim_C2 "c1" "2025-01-01T00:00:00.000Z" ⟨"ok.pdf", "application/pdf", 52428800⟩
      StoreResponse.ok (ListResponse.ok []) (fun _ => none) initialState).2.2
      (by decide) (by decide)⟩

/-- Every upload call in the list keeps `upsert` disallowed. -/
def upsertDisallowed : BackendCall → Bool
  | .upload _ _ _ upsert => !upsert
  | _ => true

/-- Claim C7 (confirmed): every backend upload call issued by any of the
three handlers carries `upsert = false`; in the backend's upsert semantics,
an upload with `upsert = false` to a path that already exists fails instead
of replacing the object. -/
theorem claim_C7 (clientId fp fn nowIso : String) (file? : Option JsFile)
    (confirmed : Bool) (ur rr : StoreResponse) (lr : ListResponse)
    (su : String → Option String) (s : ComponentState) :
    ((handleFileUpload clientId file? nowIso ur lr su s).2.all upsertDisallowed
      = true) ∧
    ((handleFileDelete clientId fp fn confirmed rr lr su nowIso s).2.all
      upsertDisallowed = true) ∧
    ((loadFiles clientId nowIso lr su s).2.all upsertDisallowed = true) ∧
    (∀ objects path, uploadToStore (path :: objects) path false = none) := by
  have hload : ∀ s', (loadFiles clientId nowIso lr su s').2.all upsertDisallowed
      = true := by
    intro s'
    cases lr <;> simp [loadFiles, upsertDisallowed, List.all_eq_true]
  refine ⟨?_, ?_, hload s, fun objects path => by simp [uploadToStore]⟩
  · cases file? with
    | none => simp [handleFileUpload]
    | some f =>
      by_cases ht : f.type ∈ allowedTypes
      · by_cases hs : 50 * 1024 * 1024 < f.size
        · simp [handleFileUpload, ht, hs, upsertDisallowed]
        · cases ur <;>
            simp [handleFileUpload, ht, hs, upsertDisallowed, hload]
      · simp [handleFileUpload, ht]
  · cases confirmed
    · simp [handleFileDelete]
    · cases rr <;> simp [handleFileDelete, upsertDisallowed, hload]

/-- Claim C10 (confirmed): when the backend list call succeeds, the displayed
list has exactly one record per returned entry — even an entry whose
signed-URL request fails is included, with `url` absent; an entry without
size metadata is shown with size `0`, and one without a `created_at`
timestamp with the current time as its upload time. -/
theorem claim_C10 (clientId now : String) (entries : List FileEntry)
    (su : String → Option String) (s : ComponentState) :
    ((loadFiles clientId now (ListResponse.ok entries) su s).1.files.length =
      entries.length) ∧
    (∀ e ∈ entries,
      ∃ f ∈ (loadFiles clientId now (ListResponse.ok entries) su s).1.files,
        f.name = e.name ∧ f.path = clientId ++ "/" ++ e.name ∧
        f.url = su (clientId ++ "/" ++ e.name) ∧
        (e.metadataSize = none → f.size = 0) ∧
        (e.createdAt = none → f.uploadedAt = now)) := by
  constructor
  · simp [loadFiles]
  · intro e he
    refine ⟨mkUploadedFile clientId now su e, ?_, rfl, rfl, rfl, ?_, ?_⟩
    · simp [loadFiles]
      exact ⟨e, he, rfl⟩
    · intro h
      simp [mkUploadedFile, jsOrNat, h]
    · intro h
      simp [mkUploadedFile, jsOrStr, h]

/-- Claim C10 witness: a single entry with no size metadata, no timestamp and
a failing signed-URL request is still displayed, with size `0`, upload time
the current time, and no URL. -/
theorem claim_C10_witness :
    ∃ f ∈ (loadFiles "c1" "2025-01-01T00:00:00.000Z"
        (ListResponse.ok [⟨"f.pdf", none, none⟩]) (fun _ => none)
        initialState).1.files,
      f.name = "f.pdf" ∧ f.path = "c1" ++ "/" ++ "f.pdf" ∧
      f.url = (fun _ => (none : Option String)) ("c1" ++ "/" ++ "f.pdf") ∧
      ((⟨"f.pdf", none, none⟩ : FileEntry).metadataSize = none → f.size = 0) ∧
      ((⟨"f.pdf", none, none⟩ : FileEntry).createdAt = none →
        f.uploadedAt = "2025-01-01T00:00:00.000Z") :=
  (claim_C10 "c1" "2025-01-01T00:00:00.000Z" [⟨"f.pdf", none, none⟩]
    (fun _ => none) initialState).2 ⟨"f.pdf", none, none⟩ (by simp)


/-- Claim C1 counterexample: the claim is false on the code.  Starting from
the initial state, a valid upload that succeeds at the backend but whose
triggered re-list fails ends with the success message of the upload and the
error message of the re-list set at the same time, because `loadFiles` never
clears the success message. -/
theorem claim_C1_counterexample :
    (handleFileUpload "c1" (some ⟨"report.pdf", "application/pdf", 100⟩)
        "2025-01-01T00:00:00.000Z" StoreResponse.ok
        (ListResponse.err "network down") (fun _ => none) initialState).1.error =
      some "Failed to load files: network down" ∧
    (handleFileUpload "c1" (some ⟨"report.pdf", "application/pdf", 100⟩)
        "2025-01-01T00:00:00.000Z" StoreResponse.ok
        (ListResponse.err "network down") (fun _ => none) initialState).1.success =
      some "File \"report.pdf\" uploaded successfully!" := by
  constructor <;> decide

/-- Claim C1 (corrected): `loadFiles` clears only the error message and
preserves the success message, so a standalone list whose pre-state has no
success message never leaves both messages set; upload and delete clear both
messages at their start, and the only way they end with both set is a
backend-successful mutation (for upload, one that also passed validation)
whose triggered re-list fails. -/
theorem claim_C1 (clientId now : String) (lr : ListResponse)
    (su : String → Option String) (s : ComponentState) :
    ((loadFiles clientId now lr su s).1.success = s.success) ∧
    (s.success = none → bothSet (loadFiles clientId now lr su s).1 = false) ∧
    (∀ f ur, bothSet (handleFileUpload clientId (some f) now ur lr su s).1 = true →
      validFile f = true ∧ ur = StoreResponse.ok ∧ listFailed lr = true) ∧
    (∀ fp fn rr,
      bothSet (handleFileDelete clientId fp fn true rr lr su now s).1 = true →
      rr = StoreResponse.ok ∧ listFailed lr = true) := by
  refine ⟨?_, ?_, ?_, ?_⟩
  · cases lr <;> simp [loadFiles]
  · intro h
    cases lr <;> simp [loadFiles, bothSet, h]
  · intro f ur h
    by_cases ht : f.type ∈ allowedTypes
    · by_cases hs : 50 * 1024 * 1024 < f.size
      · simp [handleFileUpload, ht, hs, bothSet] at h
      · cases ur with
        | ok =>
          refine ⟨by simp [validFile, ht]; omega, rfl, ?_⟩
          cases lr with
          | ok entries => simp [handleFileUpload, ht, hs, loadFiles, bothSet] at h
          | err m => rfl
          | exn => rfl
        | err m => simp [handleFileUpload, ht, hs, bothSet] at h
        | exn => simp [handleFileUpload, ht, hs, bothSet] at h
    · simp [handleFileUpload, ht, bothSet] at h
  · intro fp fn rr h
    cases rr with
    | ok =>
      refine ⟨rfl, ?_⟩
      cases lr with
      | ok entries => simp [handleFileDelete, loadFiles, bothSet] at h
      | err m => rfl
      | exn => rfl
    | err m => simp [handleFileDelete, bothSet] at h
    | exn => simp [handleFileDelete, bothSet] at h

/-- Claim C1 witness: the amended properties applied at concrete inputs — a
standalone failing list from the initial state (no success message) leaves
only the error message set, and a concrete upload run that ends with both
messages set indeed passed validation, succeeded at the backend, and had a
failing re-list. -/
theorem claim_C1_witness :
    (bothSet (loadFiles "c1" "2025-01-01T00:00:00.000Z"
        (ListResponse.err "boom") (fun _ => none) initialState).1 = false) ∧
    (validFile ⟨"report.pdf", "application/pdf", 100⟩ = true ∧
      StoreResponse.ok = StoreResponse.ok ∧
      listFailed (ListResponse.err "network down") = true) :=
  ⟨(claim_C1 "c1" "2025-01-01T00:00:00.000Z" (ListResponse.err "boom")
      (fun _ => none) initialState).2.1 rfl,
   (claim_C1 "c1" "2025-01-01T00:00:00.000Z" (ListResponse.err "network down")
      (fun _ => none) initialState).2.2.1 ⟨"report.pdf", "application/pdf", 100⟩
      StoreResponse.ok (by decide)⟩

/-- The characters of `l` strictly before its last `'.'`
(empty when it has no dot). -/
def beforeLastDotL : List Char → List Char
  | [] => []
  | c :: cs => if '.' ∈ cs then c :: beforeLastDotL cs else []

/-- Modelled from the spec's words, for comparison with the code's
`derivedFileName`: append the timestamp to the file's base name — the name
with its extension (the part after the last dot) removed — before that
extension, yielding `<base>_<timestamp>.<ext>`. -/
def specDerivedName (name timestamp : String) : String :=
  String.mk (beforeLastDotL name.data) ++ "_" ++ timestamp ++ "." ++
    String.mk (afterLastDotL name.data)

/-- Claim C3 counterexample: for the two-dot name `a.b.pdf` the code keeps
only the part before the FIRST dot, so the derived name is
`a_<timestamp>.pdf`, not the claimed `<base>_<timestamp>.<ext>` with base
`a.b`; the object is stored under the code's name. -/
theorem claim_C3_counterexample :
    derivedFileName "a.b.pdf" "2025-01-01T00-00-00-000Z" =
      "a_2025-01-01T00-00-00-000Z.pdf" ∧
    specDerivedName "a.b.pdf" "2025-01-01T00-00-00-000Z" =
      "a.b_2025-01-01T00-00-00-000Z.pdf" ∧
    derivedFileName "a.b.pdf" "2025-01-01T00-00-00-000Z" ≠
      specDerivedName "a.b.pdf" "2025-01-01T00-00-00-000Z" ∧
    (handleFileUpload "c1" (some ⟨"a.b.pdf", "application/pdf", 100⟩)
        "2025-01-01T00:00:00.000Z" StoreResponse.ok (ListResponse.ok [])
        (fun _ => none) initialState).2.head? =
      some (BackendCall.upload "application-forms"
        "c1/a_2025-01-01T00-00-00-000Z.pdf" "3600" false) := by
  refine ⟨by decide, by decide, by decide, by decide⟩

/-- Claim C3 (corrected): for every file passing validation, the upload
stores the object at `clientId/<derivedName>` where the derived name is
`<beforeFirstDot>_<timestamp>.<afterLastDot>` — the base used is the part of
the file name before its FIRST dot, so interior segments of a multi-dot name
are dropped; for single-dot names this coincides with
`<base>_<timestamp>.<ext>`, and `report.pdf` for client `c1` at
`2025-01-01T00:00:00Z` is stored at
`c1/report_2025-01-01T00-00-00-000Z.pdf`. -/
theorem claim_C3 (clientId nowIso : String) (f : JsFile) (ur : StoreResponse)
    (lr : ListResponse) (su : String → Option String) (s : ComponentState)
    (hv : validFile f = true) :
    (handleFileUpload clientId (some f) nowIso ur lr su s).2.head? =
      some (BackendCall.upload "application-forms"
        (clientId ++ "/" ++ derivedFileName f.name (isoToTimestamp nowIso))
        "3600" false) ∧
    derivedFileName f.name (isoToTimestamp nowIso) =
      String.mk (beforeFirstDotL f.name.data) ++ "_" ++ isoToTimestamp nowIso ++
        "." ++ String.mk (afterLastDotL f.name.data) ∧
    specDerivedName "report.pdf" (isoToTimestamp "2025-01-01T00:00:00.000Z") =
      derivedFileName "report.pdf" (isoToTimestamp "2025-01-01T00:00:00.000Z") ∧
    (handleFileUpload "c1" (some ⟨"report.pdf", "application/pdf", 2097152⟩)
        "2025-01-01T00:00:00.000Z" StoreResponse.ok (ListResponse.ok [])
        (fun _ => none) initialState).2.head? =
      some (BackendCall.upload "application-forms"
        "c1/report_2025-01-01T00-00-00-000Z.pdf" "3600" false) := by
  simp [validFile] at hv
  have ht : f.type ∈ allowedTypes := hv.1
  have hs : ¬ 50 * 1024 * 1024 < f.size := by omega
  refine ⟨?_, derivedFileName_decomp f.name (isoToTimestamp nowIso),
    by decide, by decide⟩
  cases ur <;> simp [handleFileUpload, ht, hs]

/-- Claim C3 witness: the amended claim applied to the concrete file
`report.pdf` (2 MB, `application/pdf`) for client `c1` at simulated time
`2025-01-01T00:00:00Z`. -/
theorem claim_C3_witness :
    (handleFileUpload "c1" (some ⟨"report.pdf", "application/pdf", 2097152⟩)
        "2025-01-01T00:00:00.000Z" StoreResponse.ok (ListResponse.ok [])
        (fun _ => none) initialState).2.head? =
      some (BackendCall.upload "application-forms"
        ("c1" ++ "/" ++ derivedFileName "report.pdf"
          (isoToTimestamp "2025-01-01T00:00:00.000Z")) "3600" false) :=
  (claim_C3 "c1" "2025-01-01T00:00:00.000Z" ⟨"report.pdf", "application/pdf", 2097152⟩
    StoreResponse.ok (ListResponse.ok []) (fun _ => none) initialState
    (by decide)).1

/-- Claim C9 (confirmed): the derived object name is
`<beforeFirstDot>_<timestamp>.<afterLastDot>`, where for a name containing a
dot `beforeFirstDotL` is exactly the dot-free segment preceding the first
`'.'` and `afterLastDotL` exactly the dot-free segment following the last
`'.'`, and for a dotless name both equal the whole name; in particular
`a.b.pdf` drops its interior segment and `README` appears twice, as both
base and extension. -/
theorem claim_C9 (name ts : String) :
    derivedFileName name ts =
      String.mk (beforeFirstDotL name.data) ++ "_" ++ ts ++ "." ++
        String.mk (afterLastDotL name.data) ∧
    ('.' ∉ name.data →
      beforeFirstDotL name.data = name.data ∧
      afterLastDotL name.data = name.data) ∧
    ('.' ∈ name.data →
      ('.' ∉ beforeFirstDotL name.data ∧
        ∃ post, name.data = beforeFirstDotL name.data ++ '.' :: post) ∧
      ('.' ∉ afterLastDotL name.data ∧
        ∃ pre, name.data = pre ++ '.' :: afterLastDotL name.data)) ∧
    derivedFileName "a.b.pdf" "2025-01-01T00-00-00-000Z" =
      "a_2025-01-01T00-00-00-000Z.pdf" ∧
    derivedFileName "README" "2025-01-01T00-00-00-000Z" =
      "README_2025-01-01T00-00-00-000Z.README" := by
  refine ⟨derivedFileName_decomp name ts, ?_, ?_, by decide, by decide⟩
  · intro h
    exact ⟨(beforeFirstDotL_spec name.data).1 h, (afterLastDotL_spec name.data).1 h⟩
  · intro h
    exact ⟨(beforeFirstDotL_spec name.data).2 h, (afterLastDotL_spec name.data).2 h⟩

/-- Claim C9 witness: the dot and dotless characterizations applied at the
concrete names `a.b.pdf` and `README`. -/
theorem claim_C9_witness :
    (('.' ∉ "README".data →
      beforeFirstDotL "README".data = "README".data ∧
      afterLastDotL "README".data = "README".data) ∧
      beforeFirstDotL "README".data = "README".data ∧
      afterLastDotL "README".data = "README".data) ∧
    (('.' ∉ beforeFirstDotL "a.b.pdf".data ∧
      ∃ post, "a.b.pdf".data = beforeFirstDotL "a.b.pdf".data ++ '.' :: post) ∧
      ('.' ∉ afterLastDotL "a.b.pdf".data ∧
      ∃ pre, "a.b.pdf".data = pre ++ '.' :: afterLastDotL "a.b.pdf".data)) :=
  ⟨⟨(claim_C9 "README" "T").2.1, (claim_C9 "README" "T").2.1 (by decide)⟩,
   (claim_C9 "a.b.pdf" "T").2.2.1 (by decide)⟩


/-- Claim C8 (confirmed): `formatFileSize` renders byte counts in 1024-based
units with two-decimal precision (trailing zeros dropped) from
`{Bytes, KB, MB, GB}`, the unit index being the floor of the base-1024
logarithm — for every `b` with `1024 ^ i ≤ b < 1024 ^ (i + 1)` the rendered
string carries unit `sizesList[i]`; in particular `formatFileSize 0 =
"0 Bytes"`, `formatFileSize 1024 = "1 KB"`, `formatFileSize 1536 =
"1.5 KB"`. -/
theorem claim_C8 :
    formatFileSize 0 = "0 Bytes" ∧
    formatFileSize 1024 = "1 KB" ∧
    formatFileSize 1536 = "1.5 KB" ∧
    ∀ b i, 1024 ^ i ≤ b → b < 1024 ^ (i + 1) →
      ∃ digits, formatFileSize b = digits ++ " " ++ sizesList.getD i "undefined" := by
  have hlog1024 : Nat.log 1024 1024 = 1 :=
    Nat.log_eq_of_pow_le_of_lt_pow (by norm_num) (by norm_num)
  have hlog1536 : Nat.log 1024 1536 = 1 :=
    Nat.log_eq_of_pow_le_of_lt_pow (by norm_num) (by norm_num)
  refine ⟨rfl, ?_, ?_, ?_⟩
  · rw [show formatFileSize 1024 =
        renderFixed2 1024 (1024 ^ Nat.log 1024 1024) ++ " " ++
          sizesList.getD (Nat.log 1024 1024) "undefined" from rfl, hlog1024]
    decide
  · rw [show formatFileSize 1536 =
        renderFixed2 1536 (1024 ^ Nat.log 1024 1536) ++ " " ++
          sizesList.getD (Nat.log 1024 1536) "undefined" from rfl, hlog1536]
    decide
  · intro b i hle hlt
    have hlog : Nat.log 1024 b = i := Nat.log_eq_of_pow_le_of_lt_pow hle hlt
    have hpos : 0 < 1024 ^ i := pow_pos (by norm_num) i
    have hb : ¬ b = 0 := by omega
    refine ⟨renderFixed2 b (1024 ^ i), ?_⟩
    simp [formatFileSize, hlog, hb]

/-- Claim C8 witness: the unit-choice property applied at the concrete byte
count `1048576 = 1024 ^ 2`, whose rendered unit is `MB`. -/
theorem claim_C8_witness :
    ∃ digits, formatFileSize 1048576 =
      digits ++ " " ++ sizesList.getD 2 "undefined" :=
  claim_C8.2.2.2 1048576 2 (by decide) (by decide)

end AppForms
